import Mathlib

/- Verification development for the QRCoder add-in
   (src/commands/QRCodeMaker.py).

   The geometry-layout engine `get_qr_temp_geometry`, the matrix sources
   `build_qr_code` and `import_qr_from_file`, and the CSV preview
   `QRCodeMaker._get_csv_preview` are embedded shallowly below.  Lengths
   and coordinates are exact rationals; the host geometry kernel
   (adsk TemporaryBRepManager) is abstracted by an oracle recording which
   box creations and boolean unions succeed, and the file system is
   abstracted by passing parsed file contents as values. -/

namespace QRCoder

/-- A 3D point or vector with rational coordinates, modelling
adsk.core.Point3D / adsk.core.Vector3D.  The Python API mutates points in
place; the embedding is functional, each mutating call returning the new
value. -/
structure Vec3 where
  x : ℚ
  y : ℚ
  z : ℚ
deriving DecidableEq

/-- Point3D.translateBy(vector): componentwise addition. -/
def Vec3.translateBy (p v : Vec3) : Vec3 :=
  ⟨p.x + v.x, p.y + v.y, p.z + v.z⟩

/-- Vector3D.scaleBy(s): componentwise scaling. -/
def Vec3.scaleBy (v : Vec3) (s : ℚ) : Vec3 :=
  ⟨s * v.x, s * v.y, s * v.z⟩

/-- Vector3D.crossProduct. -/
def Vec3.crossProduct (a b : Vec3) : Vec3 :=
  ⟨a.y * b.z - a.z * b.y, a.z * b.x - a.x * b.z, a.x * b.y - a.y * b.x⟩

/-- Vector3D.dotProduct. -/
def Vec3.dot (a b : Vec3) : ℚ :=
  a.x * b.x + a.y * b.y + a.z * b.z

/-- Componentwise difference of two points. -/
def Vec3.sub (a b : Vec3) : Vec3 :=
  ⟨a.x - b.x, a.y - b.y, a.z - b.z⟩

/-- Squared magnitude of a vector. -/
def Vec3.normSq (v : Vec3) : ℚ :=
  v.dot v

/-- Model of adsk.core.Vector3D.normalize.  The API scales a nonzero vector
to unit length and returns true; on a zero-magnitude vector it returns
false and leaves the vector unchanged (it never divides by zero, so no NaN
components arise).  Over ℚ the unit scaling is exact whenever the squared
magnitude is a square of a rational, which covers every vector this
development evaluates concretely; `Rat.sqrt` is exact on those inputs. -/
def Vec3.apiNormalize (v : Vec3) : Bool × Vec3 :=
  if v.normSq = 0 then (false, v)
  else (true, v.scaleBy (1 / Rat.sqrt v.normSq))

/-- The local coordinate frame used by `get_qr_temp_geometry`: the world
geometry of the selected sketch point plus the sketch direction vectors. -/
structure Frame where
  origin : Vec3
  xDir : Vec3
  yDir : Vec3
  zDir : Vec3
deriving DecidableEq

/-- Embedding of the frame-computation step of `get_qr_temp_geometry`
(src/commands/QRCodeMaker.py lines 297-310): the sketch's xDirection and
yDirection are normalized in place (the boolean success result of each
normalize call is discarded by the code), the z direction is their cross
product, normalized likewise.  There is no check for degenerate (zero)
direction vectors and no failure path. -/
def resolveFrame (center_point_world x_dir0 y_dir0 : Vec3) : Frame :=
  let x_dir := (x_dir0.apiNormalize).2
  let y_dir := (y_dir0.apiNormalize).2
  let z_dir := ((x_dir.crossProduct y_dir).apiNormalize).2
  ⟨center_point_world, x_dir, y_dir, z_dir⟩

/-- A matrix cell value.  Cells produced by `build_qr_code` are Python
ints; cells read by `import_qr_from_file` via csv.reader are strings. -/
inductive Cell where
  | int (n : ℤ)
  | str (s : String)
deriving DecidableEq

/-- Python str(value) for a cell value: ints render in decimal, strings
render as themselves. -/
def Cell.pyStr : Cell → String
  | .int n => toString n
  | .str s => s

/-- Python str.strip() on the character list: drop leading and trailing
whitespace.  (Defined over the character list so that it evaluates by
kernel reduction; Lean's `Char.isWhitespace` covers the ASCII whitespace
Python strips.) -/
def stripChars (l : List Char) : List Char :=
  ((l.dropWhile Char.isWhitespace).reverse.dropWhile Char.isWhitespace).reverse

/-- Python s.strip() for strings. -/
def pyStrip (s : String) : String :=
  ⟨stripChars s.data⟩

/-- The cell test of `get_qr_temp_geometry` line 354:
`str(col_char).strip() == '1'`. -/
def Cell.isOn (c : Cell) : Bool :=
  pyStrip c.pyStr == "1"

/-- An oriented box, modelling adsk.core.OrientedBoundingBox3D.create
(center, lengthDirection, widthDirection, length, width, height). -/
structure Obb where
  center : Vec3
  lengthDir : Vec3
  widthDir : Vec3
  length : ℚ
  width : ℚ
  height : ℚ
deriving DecidableEq

/-- The numeric command inputs consumed by `get_qr_temp_geometry`:
block_height, base_height and qr_size, already converted to internal
length units. -/
structure InputValues where
  block_height : ℚ
  base_height : ℚ
  qr_size : ℚ
deriving DecidableEq

/-- The float tolerance used at line 335 (`if base > 1e-6`). -/
def tol : ℚ := 1 / 1000000

/-- Line 293: `side = overall_size / qr_matrix_size`. -/
def sideLen (iv : InputValues) (N : ℕ) : ℚ :=
  iv.qr_size / (N : ℚ)

/-- Lines 315-329: the start point (center of the block of cell (0,0)),
built from the sketch point's world geometry by three translations along
the frame axes. -/
def startPoint (fr : Frame) (iv : InputValues) (N : ℕ) : Vec3 :=
  let side := sideLen iv N
  ((fr.origin.translateBy
      (fr.xDir.scaleBy (-side * ((N : ℚ) / 2) + side / 2))).translateBy
      (fr.yDir.scaleBy (side * ((N : ℚ) / 2) - side / 2))).translateBy
    (fr.zDir.scaleBy (iv.base_height + iv.block_height / 2))

/-- Lines 336-342: the base-plate oriented box, centered half the base
height above the sketch point, with width = depth = overall_size. -/
def baseObb (fr : Frame) (iv : InputValues) : Obb :=
  ⟨fr.origin.translateBy (fr.zDir.scaleBy (iv.base_height / 2)),
    fr.xDir, fr.yDir, iv.qr_size, iv.qr_size, iv.base_height⟩

/-- Lines 356-367: the oriented box for the block of cell (row i, col j):
the start point translated by j*side along X and -i*side along Y, with
width = depth = side and height = block_height. -/
def blockObbAt (fr : Frame) (sp : Vec3) (side height : ℚ) (i j : ℕ) : Obb :=
  ⟨(sp.translateBy (fr.xDir.scaleBy ((j : ℚ) * side))).translateBy
      (fr.yDir.scaleBy (-(i : ℚ) * side)),
    fr.xDir, fr.yDir, side, side, height⟩

/-- Abstraction of the host geometry kernel: which box creations
(TemporaryBRepManager.createBox) succeed, and which boolean unions
(booleanOperation with the given tool box) succeed. -/
structure BrepOracle where
  createOk : Obb → Bool
  unionOk : Obb → Bool

/-- The oracle in which every host geometry operation succeeds. -/
def okOracle : BrepOracle :=
  ⟨fun _ => true, fun _ => true⟩

/-- Lines 369-387 for one qualifying cell: create the block body (on
failure, warn and skip the cell); if no accumulated body exists yet the
block becomes the accumulated body, otherwise it is unioned in (on union
failure, warn and keep the accumulated body unchanged).  The accumulated
body is represented as the list of boxes successfully merged so far. -/
def combineBlock (oracle : BrepOracle) (acc : Option (List Obb)) (block : Obb) :
    Option (List Obb) :=
  if oracle.createOk block then
    match acc with
    | none => some [block]
    | some body => if oracle.unionOk block then some (body ++ [block]) else some body
  else acc

/-- Lines 352-387: the inner loop `for j, col_char in enumerate(row)`,
with j the running column index. -/
def cellLoop (oracle : BrepOracle) (fr : Frame) (sp : Vec3) (side height : ℚ)
    (i : ℕ) : ℕ → List Cell → Option (List Obb) → Option (List Obb)
  | _, [], acc => acc
  | j, c :: rest, acc =>
      cellLoop oracle fr sp side height i (j + 1) rest
        (if c.isOn then combineBlock oracle acc (blockObbAt fr sp side height i j)
         else acc)

/-- Lines 351-387: the outer loop `for i, row in enumerate(qr_data)`. -/
def rowLoop (oracle : BrepOracle) (fr : Frame) (sp : Vec3) (side height : ℚ) :
    ℕ → List (List Cell) → Option (List Obb) → Option (List Obb)
  | _, [], acc => acc
  | i, row :: rest, acc =>
      rowLoop oracle fr sp side height (i + 1) rest
        (cellLoop oracle fr sp side height i 0 row acc)

/-- Embedding of `get_qr_temp_geometry` (lines 251-398) after the frame
has been resolved: reject an empty matrix (lines 287-290, message box and
None); compute the block side and start point; create the base plate when
base_height exceeds the 1e-6 tolerance (on creation failure the code
warns and continues with final_qr_body = None, i.e. without the base);
fold every qualifying cell into the accumulated body; return None when no
geometry at all was produced (lines 389-392), else the accumulated body.
`none` models the Python `return None` failure value. -/
def get_qr_temp_geometry (oracle : BrepOracle) (qr_data : List (List Cell))
    (fr : Frame) (iv : InputValues) : Option (List Obb) :=
  if qr_data.length = 0 then none
  else
    let side := sideLen iv qr_data.length
    let start_point := startPoint fr iv qr_data.length
    let base_body : Option (List Obb) :=
      if iv.base_height > tol then
        if oracle.createOk (baseObb fr iv) then some [baseObb fr iv] else none
      else none
    rowLoop oracle fr start_point side iv.block_height 0 qr_data base_body

/-- Append a list of merged blocks to an accumulated body: appending
nothing leaves the accumulator untouched (in particular an unset
accumulator stays unset); otherwise an unset accumulator becomes the
blocks and a set one is extended.  This is the shape the cell fold takes
when every host operation succeeds. -/
def pushAll (acc : Option (List Obb)) (bs : List Obb) : Option (List Obb) :=
  match bs with
  | [] => acc
  | _ => match acc with
         | none => some bs
         | some body => some (body ++ bs)

/-- The blocks one row contributes when every host operation succeeds:
one box per cell whose value passes the `isOn` test, in column order,
with j the running column index. -/
def rowBlocks (fr : Frame) (sp : Vec3) (side height : ℚ) (i : ℕ) :
    ℕ → List Cell → List Obb
  | _, [] => []
  | j, c :: rest =>
      (if c.isOn then [blockObbAt fr sp side height i j] else []) ++
        rowBlocks fr sp side height i (j + 1) rest

/-- The blocks the whole matrix contributes when every host operation
succeeds, rows in order, with i the running row index. -/
def gridBlocks (fr : Frame) (sp : Vec3) (side height : ℚ) :
    ℕ → List (List Cell) → List Obb
  | _, [] => []
  | i, row :: rest =>
      rowBlocks fr sp side height i 0 row ++
        gridBlocks fr sp side height (i + 1) rest

/-- The grid origin exactly as the specification words it: the anchor
point offset by (-overall_size/2 + side/2) along X, by
(+overall_size/2 - side/2) along Y and by (base_height + block_height/2)
along Z. -/
def specGridOrigin (fr : Frame) (iv : InputValues) (N : ℕ) : Vec3 :=
  ((fr.origin.translateBy
      (fr.xDir.scaleBy (-(iv.qr_size) / 2 + sideLen iv N / 2))).translateBy
      (fr.yDir.scaleBy (iv.qr_size / 2 - sideLen iv N / 2))).translateBy
    (fr.zDir.scaleBy (iv.base_height + iv.block_height / 2))

/-- The cell-center formula as the specification words it: the grid
origin plus X*(col*side) plus Y*(-row*side). -/
def specCellCenter (fr : Frame) (iv : InputValues) (N i j : ℕ) : Vec3 :=
  ((specGridOrigin fr iv N).translateBy
      (fr.xDir.scaleBy ((j : ℚ) * sideLen iv N))).translateBy
    (fr.yDir.scaleBy (-((i : ℚ) * sideLen iv N)))

/-- The coefficient of the frame X axis in a cell center, as a function
of the column index. -/
def specXCoeff (iv : InputValues) (N : ℕ) (j : ℕ) : ℚ :=
  -(iv.qr_size) / 2 + sideLen iv N / 2 + (j : ℚ) * sideLen iv N

/-- The coefficient of the frame Y axis in a cell center, as a function
of the row index. -/
def specYCoeff (iv : InputValues) (N : ℕ) (i : ℕ) : ℚ :=
  iv.qr_size / 2 - sideLen iv N / 2 - (i : ℚ) * sideLen iv N

/-- The coefficient of the frame Z axis in every cell center. -/
def specZCoeff (iv : InputValues) : ℚ :=
  iv.base_height + iv.block_height / 2

/-- Coordinate of a point along the frame X axis, measured from the frame
origin. -/
def frameX (fr : Frame) (p : Vec3) : ℚ :=
  (p.sub fr.origin).dot fr.xDir

/-- Coordinate of a point along the frame Y axis, measured from the frame
origin. -/
def frameY (fr : Frame) (p : Vec3) : ℚ :=
  (p.sub fr.origin).dot fr.yDir

/-- Smallest frame-X coordinate covered by a box whose length direction
is the frame X axis. -/
def obbXlo (fr : Frame) (b : Obb) : ℚ :=
  frameX fr b.center - b.length / 2

/-- Largest frame-X coordinate covered by such a box. -/
def obbXhi (fr : Frame) (b : Obb) : ℚ :=
  frameX fr b.center + b.length / 2

/-- Smallest frame-Y coordinate covered by a box whose width direction is
the frame Y axis. -/
def obbYlo (fr : Frame) (b : Obb) : ℚ :=
  frameY fr b.center - b.width / 2

/-- Largest frame-Y coordinate covered by such a box. -/
def obbYhi (fr : Frame) (b : Obb) : ℚ :=
  frameY fr b.center + b.width / 2

/-- Least value of f over a nonempty list of boxes (0 for the empty
list, which never arises for a returned body). -/
def lowerBound (f : Obb → ℚ) : List Obb → ℚ
  | [] => 0
  | b :: rest => rest.foldl (fun m b2 => min m (f b2)) (f b)

/-- Greatest value of f over a nonempty list of boxes. -/
def upperBound (f : Obb → ℚ) : List Obb → ℚ
  | [] => 0
  | b :: rest => rest.foldl (fun m b2 => max m (f b2)) (f b)

/-- Extent of a body's footprint along the frame X axis. -/
def footprintWidth (fr : Frame) (body : List Obb) : ℚ :=
  upperBound (obbXhi fr) body - lowerBound (obbXlo fr) body

/-- Extent of a body's footprint along the frame Y axis. -/
def footprintDepth (fr : Frame) (body : List Obb) : ℚ :=
  upperBound (obbYhi fr) body - lowerBound (obbYlo fr) body

/-- A cell is a bit value in the sense of the specification's
BinaryMatrix data model: the integer 0 or 1, or the one-character string
"0" or "1" (the two representations the matrix sources produce). -/
def Cell.isBit : Cell → Bool
  | .int n => n == 0 || n == 1
  | .str s => s == "0" || s == "1"

/-- The BinaryMatrix invariant of the specification: the matrix is
square (N×N with N ≥ 1), every row has length N, and every cell is a
0/1 bit value. -/
def isBinaryMatrix (m : List (List Cell)) : Bool :=
  !m.isEmpty && m.all (fun row => row.length == m.length && row.all Cell.isBit)

/-- Python `[int(char) for char in s]`: every character must be a digit,
otherwise the comprehension raises ValueError (modelled as `none`). -/
def digitsOfChars : List Char → Option (List ℤ)
  | [] => some []
  | ch :: rest =>
      if ch.isDigit then
        match digitsOfChars rest with
        | some vs => some (((ch.toNat - '0'.toNat : ℕ) : ℤ) :: vs)
        | none => none
      else none

/-- Line 461: `[int(char) for char in stripped_line]`. -/
def parseQrLine (s : String) : Option (List ℤ) :=
  digitsOfChars s.data

/-- Embedding of the matrix-building loop of `build_qr_code`
(lines 454-471): the external pyqrcode text output is passed in as its
list of lines; each line is stripped, empty lines are skipped, and a line
whose characters are not all digits is skipped with a warning.  (The
encoder call itself, lines 443-452, is the external MatrixEncoder
collaborator.) -/
def build_qr_code (qr_text_lines : List String) : List (List Cell) :=
  qr_text_lines.filterMap (fun line =>
    let stripped_line := pyStrip line
    if stripped_line.isEmpty then none
    else
      match parseQrLine stripped_line with
      | some row => some (row.map Cell.int)
      | none => none)

/-- Embedding of `import_qr_from_file` (lines 401-427), with the file
system abstracted: `some rows` stands for the parsed result
`list(csv.reader(f))` of an existing readable file, `none` for a missing
file or a read error (both of which make the function return []).  The
rows are returned as-is: the function performs no validation of shape or
cell values. -/
def import_qr_from_file (file : Option (List (List String))) :
    List (List Cell) :=
  match file with
  | none => []
  | some rows => rows.map (fun r => r.map Cell.str)

/-- Python s.upper() (modelled over the character list so it evaluates by
kernel reduction). -/
def pyUpper (s : String) : String :=
  ⟨s.data.map Char.toUpper⟩

/-- Lines 667-671: the case-insensitive search for the KEY header among
the CSV field names. -/
def findKeyHeader (fields : List String) : Option String :=
  fields.find? (fun f => pyUpper f == "KEY")

/-- The value csv.DictReader associates with a field in a data row, as
rendered by the preview line f-string: the value at the field's (first)
position, with Python's None restval rendering as "None" when the row is
shorter than the header.  (Duplicate header names, which DictReader
resolves to the last column, do not arise in this development.) -/
def dictGet (fields : List String) (row : List String) (field : String) :
    String :=
  match fields.findIdx? (fun f => f == field) with
  | none => "None"
  | some i =>
      match row.get? i with
      | some v => v
      | none => "None"

/-- The outcomes of `QRCodeMaker._get_csv_preview` (lines 655-698),
abstracting the rendered preview text to its logical content: the keys
listed (at most the first ten) and the total row count. -/
inductive CsvPreviewResult where
  | emptyOrNoHeader
  | missingKeyColumn (fields : List String)
  | noDataRows (keyHeader : String)
  | preview (keyHeader : String) (keys : List String) (total : ℕ)
deriving DecidableEq

/-- Embedding of `QRCodeMaker._get_csv_preview` with the file system
abstracted: `fields` is csv.DictReader's fieldnames (none for an empty
file) and `rows` its data rows.  A falsy fieldnames value reports an
empty file; a header without a case-insensitive KEY column reports the
missing column (and yields zero keys); otherwise the KEY value of each of
the first ten rows is collected, and a file with a header but no data
rows is reported as such. -/
def get_csv_preview (fields : Option (List String))
    (rows : List (List String)) : CsvPreviewResult :=
  match fields with
  | none => .emptyOrNoHeader
  | some fl =>
      if fl.isEmpty then .emptyOrNoHeader
      else
        match findKeyHeader fl with
        | none => .missingKeyColumn fl
        | some key_header =>
            if rows.length = 0 then .noDataRows key_header
            else
              .preview key_header
                ((rows.take 10).map (fun r => dictGet fl r key_header))
                rows.length

/-- A concrete orthonormal frame at the world origin, used to instantiate
universally quantified results on explicit inputs. -/
def F0 : Frame :=
  ⟨⟨0, 0, 0⟩, ⟨1, 0, 0⟩, ⟨0, 1, 0⟩, ⟨0, 0, 1⟩⟩

/-- Concrete inputs with block_height 1, base_height 1 and qr_size 4. -/
def ivBase1 : InputValues := ⟨1, 1, 4⟩

/-- Concrete inputs with block_height 1, no base, qr_size 4. -/
def ivNoBase : InputValues := ⟨1, 0, 4⟩

/-- Concrete inputs whose base_height 1e-7 is positive but below the 1e-6
tolerance. -/
def ivTinyBase : InputValues := ⟨1, 1 / 10000000, 4⟩

/-- An oracle in which creating the base plate of `F0`/`ivBase1` fails
and every other host operation succeeds. -/
def cexBaseOracle : BrepOracle :=
  ⟨fun b => decide (b ≠ baseObb F0 ivBase1), fun _ => true⟩

/-- An oracle in which creating the block of cell (0,0) of a 1×1 matrix
under `F0`/`ivBase1` fails and every other host operation succeeds. -/
def cexBlockOracle : BrepOracle :=
  ⟨fun b => decide (b ≠ blockObbAt F0 (startPoint F0 ivBase1 1) (sideLen ivBase1 1) ivBase1.block_height 0 0),
    fun _ => true⟩

theorem okOracle_createOk (b : Obb) : okOracle.createOk b = true := rfl

theorem okOracle_unionOk (b : Obb) : okOracle.unionOk b = true := rfl

theorem combineBlock_okOracle (acc : Option (List Obb)) (b : Obb) :
    combineBlock okOracle acc b = pushAll acc [b] := by
  cases acc <;> simp [combineBlock, okOracle, pushAll]

theorem pushAll_none_cons (b : Obb) (bs : List Obb) :
    pushAll none (b :: bs) = some (b :: bs) := rfl

theorem pushAll_cons_isSome (acc : Option (List Obb)) (b : Obb)
    (bs : List Obb) : (pushAll acc (b :: bs)).isSome = true := by
  cases acc <;> simp [pushAll]

theorem pushAll_append (acc : Option (List Obb)) (bs cs : List Obb) :
    pushAll (pushAll acc bs) cs = pushAll acc (bs ++ cs) := by
  cases bs <;> cases cs <;> cases acc <;> simp [pushAll]

theorem pushAll_some (body : List Obb) (bs : List Obb) :
    pushAll (some body) bs = some (body ++ bs) := by
  cases bs <;> simp [pushAll]

theorem pushAll_eq_none (acc : Option (List Obb)) (bs : List Obb) :
    pushAll acc bs = none ↔ acc = none ∧ bs = [] := by
  cases bs <;> cases acc <;> simp [pushAll]

theorem pushAll_mem {acc : Option (List Obb)} {bs : List Obb} {b : Obb}
    (hb : b ∈ bs) : ∃ body, pushAll acc bs = some body ∧ b ∈ body := by
  cases bs with
  | nil => cases hb
  | cons x xs =>
      cases acc with
      | none => exact ⟨x :: xs, rfl, hb⟩
      | some body => exact ⟨body ++ x :: xs, rfl, by simp [hb]⟩

theorem cellLoop_okOracle (fr : Frame) (sp : Vec3) (s h : ℚ) (i : ℕ) :
    ∀ (row : List Cell) (j : ℕ) (acc : Option (List Obb)),
      cellLoop okOracle fr sp s h i j row acc
        = pushAll acc (rowBlocks fr sp s h i j row) := by
  intro row
  induction row with
  | nil => intro j acc; rfl
  | cons c rest ih =>
      intro j acc
      cases h1 : c.isOn <;>
        simp [cellLoop, rowBlocks, h1, combineBlock_okOracle, ih, pushAll_append]

theorem rowLoop_okOracle (fr : Frame) (sp : Vec3) (s h : ℚ) :
    ∀ (rows : List (List Cell)) (i : ℕ) (acc : Option (List Obb)),
      rowLoop okOracle fr sp s h i rows acc
        = pushAll acc (gridBlocks fr sp s h i rows) := by
  intro rows
  induction rows with
  | nil => intro i acc; rfl
  | cons row rest ih =>
      intro i acc
      simp [rowLoop, gridBlocks, cellLoop_okOracle, ih, pushAll_append]

theorem build_okOracle_closed (qr : List (List Cell)) (fr : Frame)
    (iv : InputValues) (h : qr.length ≠ 0) :
    get_qr_temp_geometry okOracle qr fr iv
      = pushAll (if iv.base_height > tol then some [baseObb fr iv] else none)
          (gridBlocks fr (startPoint fr iv qr.length) (sideLen iv qr.length)
            iv.block_height 0 qr) := by
  simp [get_qr_temp_geometry, h, rowLoop_okOracle, okOracle_createOk]

theorem rowBlocks_eq_nil (fr : Frame) (sp : Vec3) (s h : ℚ) (i : ℕ) :
    ∀ (row : List Cell) (j : ℕ),
      rowBlocks fr sp s h i j row = [] ↔ ∀ c ∈ row, c.isOn = false := by
  intro row
  induction row with
  | nil => intro j; simp [rowBlocks]
  | cons c rest ih =>
      intro j
      cases h1 : c.isOn <;> simp [rowBlocks, h1, ih]

theorem gridBlocks_eq_nil (fr : Frame) (sp : Vec3) (s h : ℚ) :
    ∀ (rows : List (List Cell)) (i : ℕ),
      gridBlocks fr sp s h i rows = []
        ↔ ∀ row ∈ rows, ∀ c ∈ row, c.isOn = false := by
  intro rows
  induction rows with
  | nil => intro i; simp [gridBlocks]
  | cons row rest ih =>
      intro i
      simp [gridBlocks, rowBlocks_eq_nil, ih]

theorem mem_rowBlocks (fr : Frame) (sp : Vec3) (s h : ℚ) (i : ℕ) :
    ∀ (row : List Cell) (j : ℕ) (b : Obb),
      b ∈ rowBlocks fr sp s h i j row
        ↔ ∃ k c, row.get? k = some c ∧ c.isOn = true
            ∧ b = blockObbAt fr sp s h i (j + k) := by
  intro row
  induction row with
  | nil => intro j b; simp [rowBlocks]
  | cons c rest ih =>
      intro j b
      cases h1 : c.isOn with
      | false =>
          simp only [rowBlocks, h1, Bool.false_eq_true, if_false, List.nil_append, ih]
          constructor
          · rintro ⟨k, c2, hk, hc2, rfl⟩
            exact ⟨k + 1, c2, hk, hc2, by congr 1; omega⟩
          · rintro ⟨k, c2, hk, hc2, rfl⟩
            cases k with
            | zero =>
                rw [List.get?_cons_zero] at hk
                cases hk
                rw [h1] at hc2
                cases hc2
            | succ k2 =>
                rw [List.get?_cons_succ] at hk
                exact ⟨k2, c2, hk, hc2, by congr 1; omega⟩
      | true =>
          simp only [rowBlocks, h1, if_true, List.singleton_append, List.mem_cons, ih]
          constructor
          · rintro (rfl | ⟨k, c2, hk, hc2, rfl⟩)
            · exact ⟨0, c, rfl, h1, by simp⟩
            · exact ⟨k + 1, c2, hk, hc2, by congr 1; omega⟩
          · rintro ⟨k, c2, hk, hc2, rfl⟩
            cases k with
            | zero =>
                rw [List.get?_cons_zero] at hk
                cases hk
                simp
            | succ k2 =>
                rw [List.get?_cons_succ] at hk
                exact Or.inr ⟨k2, c2, hk, hc2, by congr 1; omega⟩

theorem mem_gridBlocks (fr : Frame) (sp : Vec3) (s h : ℚ) :
    ∀ (rows : List (List Cell)) (i : ℕ) (b : Obb),
      b ∈ gridBlocks fr sp s h i rows
        ↔ ∃ r row, rows.get? r = some row
            ∧ b ∈ rowBlocks fr sp s h (i + r) 0 row := by
  intro rows
  induction rows with
  | nil => intro i b; simp [gridBlocks]
  | cons row rest ih =>
      intro i b
      have hstep : ∀ r : ℕ, i + (r + 1) = (i + 1) + r := by omega
      simp only [gridBlocks, List.mem_append, ih]
      constructor
      · rintro (hb | ⟨r, row2, hr, hb⟩)
        · exact ⟨0, row, rfl, by simpa using hb⟩
        · exact ⟨r + 1, row2, hr, by rw [hstep]; exact hb⟩
      · rintro ⟨r, row2, hr, hb⟩
        cases r with
        | zero =>
            rw [List.get?_cons_zero] at hr
            cases hr
            exact Or.inl (by simpa using hb)
        | succ r2 =>
            rw [List.get?_cons_succ] at hr
            exact Or.inr ⟨r2, row2, hr, by rw [hstep] at hb; exact hb⟩

theorem isOn_int_one : (Cell.int 1).isOn = true := by decide

theorem isOn_int_zero : (Cell.int 0).isOn = false := by decide

theorem isOn_str_one : (Cell.str "1").isOn = true := by decide

theorem isOn_str_zero : (Cell.str "0").isOn = false := by decide

theorem isOn_str_padded : (Cell.str " 1 ").isOn = true := by decide

theorem isOn_iff (c : Cell) : c.isOn = true ↔ pyStrip c.pyStr = "1" := by
  simp [Cell.isOn]

/-- C2: for the 1×1 matrix [[1]] with base_height 0, block height H and
overall size S, the build returns a single box of width = depth = S and
height = H whose center is the frame origin (the anchor) offset by H/2
along Z. -/
theorem C2_single_cell (fr : Frame) (H S : ℚ) :
    get_qr_temp_geometry okOracle [[Cell.int 1]] fr ⟨H, 0, S⟩
      = some [⟨fr.origin.translateBy (fr.zDir.scaleBy (H / 2)),
          fr.xDir, fr.yDir, S, S, H⟩] := by
  rw [build_okOracle_closed _ _ _ (by simp)]
  rw [if_neg (by norm_num [tol])]
  simp only [List.length_cons, List.length_nil, Nat.zero_add, gridBlocks,
    rowBlocks, isOn_int_one, if_true, List.append_nil, List.singleton_append]
  rw [pushAll_none_cons]
  simp only [Option.some.injEq, List.cons.injEq, and_true]
  simp only [blockObbAt, startPoint, sideLen, Vec3.translateBy, Vec3.scaleBy,
    Obb.mk.injEq, Vec3.mk.injEq, Nat.cast_one]
  and_intros <;> ring

/-- C3: for every N×N all-zeros matrix and every base height above the
1e-6 tolerance, the build succeeds and returns exactly the base-plate
box (width = depth = overall size, height = base height, centered at the
anchor offset by base/2 along Z). -/
theorem C3_base_plate (fr : Frame) (N : ℕ) (iv : InputValues)
    (hN : 0 < N) (hB : tol < iv.base_height) :
    get_qr_temp_geometry okOracle
        (List.replicate N (List.replicate N (Cell.int 0))) fr iv
      = some [baseObb fr iv] := by
  rw [build_okOracle_closed _ _ _ (by simp; omega)]
  rw [if_pos hB]
  have hz : gridBlocks fr
      (startPoint fr iv (List.replicate N (List.replicate N (Cell.int 0))).length)
      (sideLen iv (List.replicate N (List.replicate N (Cell.int 0))).length)
      iv.block_height 0 (List.replicate N (List.replicate N (Cell.int 0))) = [] := by
    rw [gridBlocks_eq_nil]
    intro row hrow c hc
    have h1 := List.eq_of_mem_replicate hrow
    subst h1
    have h2 := List.eq_of_mem_replicate hc
    subst h2
    exact isOn_int_zero
  rw [hz]
  rfl

/-- Witness for C3 at the concrete 2×2 all-zeros matrix, frame `F0` and
inputs `ivBase1`. -/
theorem C3_witness :
    get_qr_temp_geometry okOracle
        (List.replicate 2 (List.replicate 2 (Cell.int 0))) F0 ivBase1
      = some [baseObb F0 ivBase1] :=
  C3_base_plate F0 2 ivBase1 (by norm_num) (by norm_num [tol, ivBase1])

theorem blockObbAt_startPoint_eq (fr : Frame) (iv : InputValues) (N i j : ℕ)
    (hN : (N : ℚ) ≠ 0) :
    blockObbAt fr (startPoint fr iv N) (sideLen iv N) iv.block_height i j
      = ⟨specCellCenter fr iv N i j, fr.xDir, fr.yDir, sideLen iv N,
          sideLen iv N, iv.block_height⟩ := by
  simp only [blockObbAt, startPoint, specCellCenter, specGridOrigin, sideLen,
    Vec3.translateBy, Vec3.scaleBy, Obb.mk.injEq, Vec3.mk.injEq]
  and_intros <;> first | trivial | (field_simp; ring)

theorem specCellCenter_coeffs (fr : Frame) (iv : InputValues) (N i j : ℕ) :
    specCellCenter fr iv N i j
      = ((fr.origin.translateBy (fr.xDir.scaleBy (specXCoeff iv N j))).translateBy
          (fr.yDir.scaleBy (specYCoeff iv N i))).translateBy
        (fr.zDir.scaleBy (specZCoeff iv)) := by
  simp only [specCellCenter, specGridOrigin, specXCoeff, specYCoeff, specZCoeff,
    Vec3.translateBy, Vec3.scaleBy, Vec3.mk.injEq]
  and_intros <;> ring

/-- C1: for an N×N matrix the build places the box of every on cell
(row i, col j) at the spec's cell-center formula: the grid origin plus
X*(col*side) plus Y*(-row*side), the grid origin being the anchor offset
by -S/2 + side/2 along X, +S/2 - side/2 along Y and
base_height + block_height/2 along Z.  The cell centers decompose along
the frame axes with Y coefficient strictly decreasing in the row index,
and rows 0 and N-1 carry opposite Y coefficients. -/
theorem C1_cell_placement (qr : List (List Cell)) (fr : Frame)
    (iv : InputValues) (N : ℕ) (hN : qr.length = N)
    (hsq : ∀ row ∈ qr, row.length = N) (hN1 : 1 < N)
    (hS : 0 < iv.qr_size) :
    (∀ i j row c, qr.get? i = some row → row.get? j = some c →
        c.isOn = true →
        ∃ body, get_qr_temp_geometry okOracle qr fr iv = some body ∧
          (⟨specCellCenter fr iv N i j, fr.xDir, fr.yDir, sideLen iv N,
              sideLen iv N, iv.block_height⟩ : Obb) ∈ body)
    ∧ (∀ i j : ℕ, specCellCenter fr iv N i j
        = ((fr.origin.translateBy
              (fr.xDir.scaleBy (specXCoeff iv N j))).translateBy
            (fr.yDir.scaleBy (specYCoeff iv N i))).translateBy
          (fr.zDir.scaleBy (specZCoeff iv)))
    ∧ (∀ i1 i2 : ℕ, i1 < i2 → specYCoeff iv N i2 < specYCoeff iv N i1)
    ∧ specYCoeff iv N 0 = iv.qr_size / 2 - sideLen iv N / 2
    ∧ specYCoeff iv N (N - 1) = -(iv.qr_size / 2 - sideLen iv N / 2) := by
  have hNpos : 0 < N := by omega
  have hNq : (N : ℚ) ≠ 0 := Nat.cast_ne_zero.mpr (by omega)
  have hNqpos : (0 : ℚ) < (N : ℚ) := by exact_mod_cast hNpos
  have hside : 0 < sideLen iv N := div_pos hS hNqpos
  refine ⟨?_, ?_, ?_, ?_, ?_⟩
  · intro i j row c hrow hcell hon
    have hmem : blockObbAt fr (startPoint fr iv qr.length)
        (sideLen iv qr.length) iv.block_height i j
        ∈ gridBlocks fr (startPoint fr iv qr.length) (sideLen iv qr.length)
            iv.block_height 0 qr := by
      rw [mem_gridBlocks]
      refine ⟨i, row, hrow, ?_⟩
      rw [mem_rowBlocks]
      exact ⟨j, c, hcell, hon, by simp⟩
    obtain ⟨body, hbody, hmem2⟩ :=
      @pushAll_mem (if iv.base_height > tol then some [baseObb fr iv]
        else none) _ _ hmem
    refine ⟨body, ?_, ?_⟩
    · rw [build_okOracle_closed _ _ _ (by omega)]
      exact hbody
    · rw [← blockObbAt_startPoint_eq fr iv N i j hNq, ← hN]
      exact hmem2
  · intro i j
    exact specCellCenter_coeffs fr iv N i j
  · intro i1 i2 h12
    have hc : (i1 : ℚ) < (i2 : ℚ) := by exact_mod_cast h12
    simp only [specYCoeff]
    nlinarith [hside, hc]
  · simp [specYCoeff]
  · have hc : ((N - 1 : ℕ) : ℚ) = (N : ℚ) - 1 := by
      rw [Nat.cast_sub (by omega)]
      norm_num
    simp only [specYCoeff, hc, sideLen]
    field_simp
    ring

/-- Witness for C1 at a concrete 2×2 matrix with on cells (0,0) and
(1,1), frame `F0` and inputs `ivNoBase`: the box of cell (0,0) sits at
the spec formula's center inside the returned body. -/
theorem C1_witness :
    ∃ body, get_qr_temp_geometry okOracle
        [[Cell.int 1, Cell.int 0], [Cell.int 0, Cell.int 1]] F0 ivNoBase
        = some body
      ∧ (⟨specCellCenter F0 ivNoBase 2 0 0, F0.xDir, F0.yDir,
          sideLen ivNoBase 2, sideLen ivNoBase 2,
          ivNoBase.block_height⟩ : Obb) ∈ body :=
  (C1_cell_placement [[Cell.int 1, Cell.int 0], [Cell.int 0, Cell.int 1]]
      F0 ivNoBase 2 rfl (by decide) (by decide)
      (by norm_num [ivNoBase])).1 0 0 [Cell.int 1, Cell.int 0] (Cell.int 1)
    rfl rfl isOn_int_one

/-- C4 amended: with every host operation succeeding, the build returns
the failure value (None, reported as an empty-matrix condition) exactly
when the matrix has zero rows, or when it contains no on cell while
base_height is at or below the 1e-6 tolerance (not only when base_height
is exactly zero). -/
theorem C4_failure_condition (qr : List (List Cell)) (fr : Frame)
    (iv : InputValues) :
    get_qr_temp_geometry okOracle qr fr iv = none
      ↔ qr.length = 0
        ∨ ((∀ row ∈ qr, ∀ c ∈ row, c.isOn = false)
            ∧ iv.base_height ≤ tol) := by
  by_cases h : qr.length = 0
  · simp [get_qr_temp_geometry, h]
  · rw [build_okOracle_closed _ _ _ h, pushAll_eq_none, gridBlocks_eq_nil]
    have hbase : ((if iv.base_height > tol then some [baseObb fr iv]
        else none) = none) ↔ iv.base_height ≤ tol := by
      split_ifs with hb
      · simp only [reduceCtorEq, false_iff]
        exact not_le.mpr hb
      · simp only [true_iff]
        exact not_lt.mp hb
    rw [hbase]
    simp only [h, false_or]
    tauto

/-- C4 counterexample: for the 1×1 all-zeros matrix and base_height
1e-7 (positive but below the tolerance), the build fails even though the
matrix is nonempty and base_height is not 0, so failing "exactly when
the matrix has zero rows or no on cells with base_height = 0" is false
at this input. -/
theorem C4_counterexample :
    ¬ ((get_qr_temp_geometry okOracle [[Cell.int 0]] F0 ivTinyBase = none)
        ↔ (([[Cell.int 0]] : List (List Cell)).length = 0
            ∨ ((∀ row ∈ ([[Cell.int 0]] : List (List Cell)), ∀ c ∈ row,
                  c.isOn = false)
                ∧ ivTinyBase.base_height = 0))) := by
  intro hiff
  have hnone : get_qr_temp_geometry okOracle [[Cell.int 0]] F0 ivTinyBase
      = none := by
    rw [build_okOracle_closed _ _ _ (by simp)]
    rw [if_neg (by norm_num [tol, ivTinyBase])]
    simp [gridBlocks, rowBlocks, isOn_int_zero, pushAll]
  rcases hiff.mp hnone with h0 | ⟨_, h1⟩
  · simp at h0
  · rw [show ivTinyBase.base_height = 1 / 10000000 from rfl] at h1
    norm_num at h1

theorem combineBlock_isSome (o : BrepOracle) (acc : Option (List Obb))
    (b : Obb) :
    (combineBlock o acc b).isSome = (acc.isSome || o.createOk b) := by
  cases acc with
  | none => cases h1 : o.createOk b <;> simp [combineBlock, h1]
  | some body =>
      cases h1 : o.createOk b <;> cases h2 : o.unionOk b <;>
        simp [combineBlock, h1, h2]

theorem cellLoop_isSome (o : BrepOracle) (fr : Frame) (sp : Vec3)
    (s h : ℚ) (i : ℕ) :
    ∀ (row : List Cell) (j : ℕ) (acc : Option (List Obb)),
      (cellLoop o fr sp s h i j row acc).isSome
        = (acc.isSome || (rowBlocks fr sp s h i j row).any o.createOk) := by
  intro row
  induction row with
  | nil => intro j acc; simp [cellLoop, rowBlocks]
  | cons c rest ih =>
      intro j acc
      cases h1 : c.isOn <;>
        simp [cellLoop, rowBlocks, h1, ih, combineBlock_isSome,
          Bool.or_assoc]

theorem rowLoop_isSome (o : BrepOracle) (fr : Frame) (sp : Vec3)
    (s h : ℚ) :
    ∀ (rows : List (List Cell)) (i : ℕ) (acc : Option (List Obb)),
      (rowLoop o fr sp s h i rows acc).isSome
        = (acc.isSome || (gridBlocks fr sp s h i rows).any o.createOk) := by
  intro rows
  induction rows with
  | nil => intro i acc; simp [rowLoop, gridBlocks]
  | cons row rest ih =>
      intro i acc
      simp [rowLoop, gridBlocks, ih, cellLoop_isSome, Bool.or_assoc]

/-- C5 amended: construction-time failures of the host geometry kernel
do not abort the build and are not surfaced as the failure value: a
failed base-plate creation drops the base and continues, a failed
per-cell box creation skips that cell, and a failed per-cell union keeps
the accumulated body unchanged (each is reported as a warning message
only).  For every oracle of host outcomes, the build returns a solid if
and only if the matrix is nonempty and at least one component (the base
plate, or some on-cell box) was successfully created. -/
theorem C5_no_abort (o : BrepOracle) (qr : List (List Cell)) (fr : Frame)
    (iv : InputValues) :
    (get_qr_temp_geometry o qr fr iv).isSome
      = (!(qr.length == 0)
          && ((decide (tol < iv.base_height) && o.createOk (baseObb fr iv))
              || (gridBlocks fr (startPoint fr iv qr.length)
                    (sideLen iv qr.length) iv.block_height 0
                    qr).any o.createOk)) := by
  by_cases h : qr.length = 0
  · simp [get_qr_temp_geometry, h]
  · simp only [get_qr_temp_geometry, h, if_false, rowLoop_isSome, h,
      beq_iff_eq, decide_eq_true_eq]
    have hbase : (if iv.base_height > tol then
          (if o.createOk (baseObb fr iv) then some [baseObb fr iv]
            else none)
        else none).isSome
        = (decide (tol < iv.base_height) && o.createOk (baseObb fr iv)) := by
      split_ifs with h1 h2 <;> simp_all
    rw [hbase]
    simp [h]

/-- C5 counterexample: with a 1×1 matrix [[1]] and base_height 1 (above
tolerance), an oracle failing exactly the base-plate creation still
yields a solid — the block without its base plate (partial geometry, no
failure value); likewise an oracle failing exactly the cell-box creation
yields the base plate alone.  The claim that such creation failures
abort the build and surface a failure value is false at these inputs. -/
theorem C5_counterexample :
    cexBaseOracle.createOk (baseObb F0 ivBase1) = false
    ∧ tol < ivBase1.base_height
    ∧ get_qr_temp_geometry cexBaseOracle [[Cell.int 1]] F0 ivBase1
        = some [blockObbAt F0 (startPoint F0 ivBase1 1) (sideLen ivBase1 1)
            ivBase1.block_height 0 0]
    ∧ cexBlockOracle.createOk (blockObbAt F0 (startPoint F0 ivBase1 1)
          (sideLen ivBase1 1) ivBase1.block_height 0 0) = false
    ∧ get_qr_temp_geometry cexBlockOracle [[Cell.int 1]] F0 ivBase1
        = some [baseObb F0 ivBase1] := by
  have hne : blockObbAt F0 (startPoint F0 ivBase1 1) (sideLen ivBase1 1)
      ivBase1.block_height 0 0 ≠ baseObb F0 ivBase1 := by
    simp only [blockObbAt, baseObb, startPoint, sideLen, F0, ivBase1,
      Vec3.translateBy, Vec3.scaleBy, ne_eq, Obb.mk.injEq, Vec3.mk.injEq]
    norm_num
  have hc1 : cexBaseOracle.createOk (baseObb F0 ivBase1) = false := by
    simp [cexBaseOracle]
  have hc2 : cexBaseOracle.createOk (blockObbAt F0 (startPoint F0 ivBase1 1)
      (sideLen ivBase1 1) ivBase1.block_height 0 0) = true := by
    simp [cexBaseOracle]
    exact hne
  have hc3 : cexBlockOracle.createOk (blockObbAt F0 (startPoint F0 ivBase1 1)
      (sideLen ivBase1 1) ivBase1.block_height 0 0) = false := by
    simp [cexBlockOracle]
  have hc4 : cexBlockOracle.createOk (baseObb F0 ivBase1) = true := by
    simp [cexBlockOracle]
    exact fun hcontra => hne hcontra.symm
  have hbase : tol < ivBase1.base_height := by norm_num [tol, ivBase1]
  refine ⟨hc1, hbase, ?_, hc3, ?_⟩
  · rw [get_qr_temp_geometry]
    rw [if_neg (by simp)]
    rw [if_pos hbase, if_neg (by simp [hc1])]
    simp only [List.length_cons, List.length_nil, Nat.zero_add]
    rw [rowLoop, cellLoop, if_pos isOn_int_one, cellLoop, rowLoop]
    rw [combineBlock, if_pos hc2]
  · rw [get_qr_temp_geometry]
    rw [if_neg (by simp)]
    rw [if_pos hbase, if_pos hc4]
    simp only [List.length_cons, List.length_nil, Nat.zero_add]
    rw [rowLoop, cellLoop, if_pos isOn_int_one, cellLoop, rowLoop]
    rw [combineBlock, if_neg (by simp [hc3])]

/-- C6 amended: the frame-resolution step performs no degeneracy check
and has no failure path (no DegenerateVectorError exists in the code):
for every anchor and axis inputs it returns a frame, and a zero-magnitude
axis vector is left unchanged by the failed normalize call, so the frame
silently carries the zero vector itself — finite components, not NaN. -/
theorem C6_axis_not_checked (o xd yd : Vec3) (h : xd.normSq = 0) :
    (resolveFrame o xd yd).origin = o ∧ (resolveFrame o xd yd).xDir = xd := by
  constructor
  · rfl
  · simp [resolveFrame, Vec3.apiNormalize, h]

/-- Witness for C6 at the zero x-axis vector. -/
theorem C6_witness :
    (resolveFrame ⟨0, 0, 0⟩ ⟨0, 0, 0⟩ ⟨0, 1, 0⟩).origin = ⟨0, 0, 0⟩
    ∧ (resolveFrame ⟨0, 0, 0⟩ ⟨0, 0, 0⟩ ⟨0, 1, 0⟩).xDir = ⟨0, 0, 0⟩ :=
  C6_axis_not_checked ⟨0, 0, 0⟩ ⟨0, 0, 0⟩ ⟨0, 1, 0⟩
    (by norm_num [Vec3.normSq, Vec3.dot])

/-- C6 counterexample: handed the degenerate x axis (0,0,0), the
frame-resolution step does not fail — it returns a complete frame, whose
x and z axes are the zero vector passed through unchanged — so the claim
that it fails with DegenerateVectorError is false at this input. -/
theorem C6_counterexample :
    resolveFrame ⟨0, 0, 0⟩ ⟨0, 0, 0⟩ ⟨0, 1, 0⟩
      = ⟨⟨0, 0, 0⟩, ⟨0, 0, 0⟩, ⟨0, 1, 0⟩, ⟨0, 0, 0⟩⟩ := by
  have hs : Rat.sqrt 1 = 1 := by decide
  have hy : (⟨0, 1, 0⟩ : Vec3).apiNormalize = (true, ⟨0, 1, 0⟩) := by
    rw [Vec3.apiNormalize]
    rw [if_neg (by norm_num [Vec3.normSq, Vec3.dot])]
    rw [show (⟨0, 1, 0⟩ : Vec3).normSq = 1 by norm_num [Vec3.normSq, Vec3.dot]]
    rw [hs]
    simp [Vec3.scaleBy]
  have hz : (⟨0, 0, 0⟩ : Vec3).apiNormalize = (false, ⟨0, 0, 0⟩) := by
    rw [Vec3.apiNormalize]
    rw [if_pos (by norm_num [Vec3.normSq, Vec3.dot])]
  rw [resolveFrame]
  simp only [hy, hz]
  rw [show (⟨0, 0, 0⟩ : Vec3).crossProduct ⟨0, 1, 0⟩ = ⟨0, 0, 0⟩ by
    simp [Vec3.crossProduct]]
  simp [hz]

/-- C10: the build treats a cell as on exactly when the stripped string
form of its value is "1" — both the integer 1 and the string "1" (even
whitespace-padded) count as on — and every other value is off and raises
no error: in the matrix [[c],[1]] the build always succeeds, and the box
of cell (0,0) is present in the body exactly when c's stripped string
form is "1". -/
theorem C10_on_marker (c : Cell) (fr : Frame) (iv : InputValues)
    (hS : 0 < iv.qr_size) (hy : fr.yDir ≠ ⟨0, 0, 0⟩) :
    (get_qr_temp_geometry okOracle [[c], [Cell.int 1]] fr iv).isSome = true
    ∧ (∀ body,
        get_qr_temp_geometry okOracle [[c], [Cell.int 1]] fr iv = some body →
          (blockObbAt fr (startPoint fr iv 2) (sideLen iv 2)
              iv.block_height 0 0 ∈ body ↔ pyStrip c.pyStr = "1"))
    ∧ (Cell.int 1).isOn = true ∧ (Cell.str "1").isOn = true
    ∧ (Cell.str " 1 ").isOn = true
    ∧ (Cell.int 0).isOn = false ∧ (Cell.str "0").isOn = false
    ∧ (∀ c2 : Cell, c2.isOn = true ↔ pyStrip c2.pyStr = "1") := by
  have hNq : ((2 : ℕ) : ℚ) ≠ 0 := by norm_num
  have hside : (0 : ℚ) < sideLen iv 2 := by
    rw [sideLen]
    positivity
  have hlen : ([[c], [Cell.int 1]] : List (List Cell)).length = 2 := rfl
  have hclosed := build_okOracle_closed [[c], [Cell.int 1]] fr iv (by simp)
  have hgrid : gridBlocks fr (startPoint fr iv 2) (sideLen iv 2)
      iv.block_height 0 [[c], [Cell.int 1]]
      = (if c.isOn then
          [blockObbAt fr (startPoint fr iv 2) (sideLen iv 2)
            iv.block_height 0 0] else [])
        ++ [blockObbAt fr (startPoint fr iv 2) (sideLen iv 2)
            iv.block_height 1 0] := by
    simp [gridBlocks, rowBlocks, isOn_int_one]
  have hside0 : sideLen iv 2 ≠ 0 := ne_of_gt hside
  have hb00_ne_b10 : blockObbAt fr (startPoint fr iv 2) (sideLen iv 2)
      iv.block_height 0 0
      ≠ blockObbAt fr (startPoint fr iv 2) (sideLen iv 2)
        iv.block_height 1 0 := by
    intro hcontra
    simp only [blockObbAt, Obb.mk.injEq, Vec3.translateBy, Vec3.scaleBy,
      Vec3.mk.injEq, Nat.cast_zero, Nat.cast_one] at hcontra
    obtain ⟨⟨e1, e2, e3⟩, -⟩ := hcontra
    have hYx : sideLen iv 2 * fr.yDir.x = 0 := by linarith
    have hYy : sideLen iv 2 * fr.yDir.y = 0 := by linarith
    have hYz : sideLen iv 2 * fr.yDir.z = 0 := by linarith
    have hx : fr.yDir.x = 0 := by
      rcases mul_eq_zero.mp hYx with h2 | h2
      · exact absurd h2 hside0
      · exact h2
    have hy2 : fr.yDir.y = 0 := by
      rcases mul_eq_zero.mp hYy with h2 | h2
      · exact absurd h2 hside0
      · exact h2
    have hz : fr.yDir.z = 0 := by
      rcases mul_eq_zero.mp hYz with h2 | h2
      · exact absurd h2 hside0
      · exact h2
    apply hy
    rcases hfr : fr.yDir with ⟨a, b, d⟩
    rw [hfr] at hx hy2 hz
    simp_all
  have hb00_ne_base : blockObbAt fr (startPoint fr iv 2) (sideLen iv 2)
      iv.block_height 0 0 ≠ baseObb fr iv := by
    intro hcontra
    simp only [blockObbAt, baseObb, Obb.mk.injEq] at hcontra
    obtain ⟨-, -, -, hlen2, -⟩ := hcontra
    norm_num [sideLen] at hlen2
    linarith
  refine ⟨?_, ?_, isOn_int_one, isOn_str_one, isOn_str_padded, isOn_int_zero,
    isOn_str_zero, fun c2 => isOn_iff c2⟩
  · rw [hclosed, hlen, hgrid]
    cases h1 : c.isOn with
    | true =>
        rw [if_pos (show (true : Bool) = true from rfl)]
        simp only [List.singleton_append]
        exact pushAll_cons_isSome _ _ _
    | false =>
        rw [if_neg (show ¬((false : Bool) = true) from Bool.false_ne_true)]
        simp only [List.nil_append]
        exact pushAll_cons_isSome _ _ _
  · intro body hbody
    rw [hclosed, hlen, hgrid] at hbody
    cases h1 : c.isOn with
    | true =>
        rw [if_pos h1] at hbody
        simp only [List.singleton_append] at hbody
        refine iff_of_true ?_ ((isOn_iff c).mp h1)
        rcases lt_or_le tol iv.base_height with hb | hb
        · rw [if_pos hb, pushAll_some] at hbody
          injection hbody with hbody2
          subst hbody2
          simp
        · rw [if_neg (not_lt.mpr hb), pushAll_none_cons] at hbody
          injection hbody with hbody2
          subst hbody2
          simp
    | false =>
        have hneg : ¬(c.isOn = true) := by
          rw [h1]
          exact Bool.false_ne_true
        rw [if_neg hneg] at hbody
        simp only [List.nil_append] at hbody
        refine iff_of_false ?_ ?_
        · rcases lt_or_le tol iv.base_height with hb | hb
          · rw [if_pos hb, pushAll_some] at hbody
            injection hbody with hbody2
            subst hbody2
            simp [hb00_ne_base, hb00_ne_b10]
          · rw [if_neg (not_lt.mpr hb), pushAll_none_cons] at hbody
            injection hbody with hbody2
            subst hbody2
            simp [hb00_ne_b10]
        · intro hcontra
          rw [(isOn_iff c).mpr hcontra] at h1
          cases h1

/-- Witness for C10 at the whitespace-padded string cell " 1 ", frame
`F0` and inputs `ivNoBase`. -/
theorem C10_witness :
    (get_qr_temp_geometry okOracle [[Cell.str " 1 "], [Cell.int 1]] F0
        ivNoBase).isSome = true
    ∧ (∀ body, get_qr_temp_geometry okOracle [[Cell.str " 1 "], [Cell.int 1]]
          F0 ivNoBase = some body →
          (blockObbAt F0 (startPoint F0 ivNoBase 2) (sideLen ivNoBase 2)
              ivNoBase.block_height 0 0 ∈ body
            ↔ pyStrip (Cell.str " 1 ").pyStr = "1"))
    ∧ (Cell.int 1).isOn = true ∧ (Cell.str "1").isOn = true
    ∧ (Cell.str " 1 ").isOn = true
    ∧ (Cell.int 0).isOn = false ∧ (Cell.str "0").isOn = false
    ∧ (∀ c2 : Cell, c2.isOn = true ↔ pyStrip c2.pyStr = "1") :=
  C10_on_marker (Cell.str " 1 ") F0 ivNoBase (by norm_num [ivNoBase])
    (by decide)

theorem foldl_min_eq_init (f : Obb → ℚ) :
    ∀ (l : List Obb) (a : ℚ), (∀ b ∈ l, a ≤ f b) →
      l.foldl (fun m b2 => min m (f b2)) a = a := by
  intro l
  induction l with
  | nil => intro a _; rfl
  | cons b rest ih =>
      intro a hall
      have h1 : min a (f b) = a := min_eq_left (hall b (by simp))
      simp only [List.foldl_cons, h1]
      exact ih a (fun b2 hb2 => hall b2 (by simp [hb2]))

theorem foldl_max_eq_init (f : Obb → ℚ) :
    ∀ (l : List Obb) (a : ℚ), (∀ b ∈ l, f b ≤ a) →
      l.foldl (fun m b2 => max m (f b2)) a = a := by
  intro l
  induction l with
  | nil => intro a _; rfl
  | cons b rest ih =>
      intro a hall
      have h1 : max a (f b) = a := max_eq_left (hall b (by simp))
      simp only [List.foldl_cons, h1]
      exact ih a (fun b2 hb2 => hall b2 (by simp [hb2]))

theorem lowerBound_cons (f : Obb → ℚ) (b : Obb) (l : List Obb)
    (h : ∀ b2 ∈ l, f b ≤ f b2) : lowerBound f (b :: l) = f b :=
  foldl_min_eq_init f l (f b) h

theorem upperBound_cons (f : Obb → ℚ) (b : Obb) (l : List Obb)
    (h : ∀ b2 ∈ l, f b2 ≤ f b) : upperBound f (b :: l) = f b :=
  foldl_max_eq_init f l (f b) h

theorem frameX_block (fr : Frame) (iv : InputValues) (N i j : ℕ)
    (hxx : fr.xDir.dot fr.xDir = 1) (hxy : fr.xDir.dot fr.yDir = 0)
    (hxz : fr.xDir.dot fr.zDir = 0) :
    frameX fr (blockObbAt fr (startPoint fr iv N) (sideLen iv N)
        iv.block_height i j).center
      = -(sideLen iv N) * ((N : ℚ) / 2) + sideLen iv N / 2
        + (j : ℚ) * sideLen iv N := by
  simp only [Vec3.dot] at hxx hxy hxz
  simp only [frameX, blockObbAt, startPoint, Vec3.translateBy, Vec3.scaleBy,
    Vec3.sub, Vec3.dot]
  linear_combination
    (-(sideLen iv N) * ((N : ℚ) / 2) + sideLen iv N / 2
        + (j : ℚ) * sideLen iv N) * hxx
      + (sideLen iv N * ((N : ℚ) / 2) - sideLen iv N / 2
          - (i : ℚ) * sideLen iv N) * hxy
      + (iv.base_height + iv.block_height / 2) * hxz

theorem frameY_block (fr : Frame) (iv : InputValues) (N i j : ℕ)
    (hyy : fr.yDir.dot fr.yDir = 1) (hxy : fr.xDir.dot fr.yDir = 0)
    (hyz : fr.yDir.dot fr.zDir = 0) :
    frameY fr (blockObbAt fr (startPoint fr iv N) (sideLen iv N)
        iv.block_height i j).center
      = sideLen iv N * ((N : ℚ) / 2) - sideLen iv N / 2
        - (i : ℚ) * sideLen iv N := by
  simp only [Vec3.dot] at hyy hxy hyz
  simp only [frameY, blockObbAt, startPoint, Vec3.translateBy, Vec3.scaleBy,
    Vec3.sub, Vec3.dot]
  linear_combination
    (-(sideLen iv N) * ((N : ℚ) / 2) + sideLen iv N / 2
        + (j : ℚ) * sideLen iv N) * hxy
      + (sideLen iv N * ((N : ℚ) / 2) - sideLen iv N / 2
          - (i : ℚ) * sideLen iv N) * hyy
      + (iv.base_height + iv.block_height / 2) * hyz

theorem frameX_base (fr : Frame) (iv : InputValues)
    (hxz : fr.xDir.dot fr.zDir = 0) :
    frameX fr (baseObb fr iv).center = 0 := by
  simp only [Vec3.dot] at hxz
  simp only [frameX, baseObb, Vec3.translateBy, Vec3.scaleBy, Vec3.sub,
    Vec3.dot]
  linear_combination (iv.base_height / 2) * hxz

theorem frameY_base (fr : Frame) (iv : InputValues)
    (hyz : fr.yDir.dot fr.zDir = 0) :
    frameY fr (baseObb fr iv).center = 0 := by
  simp only [Vec3.dot] at hyz
  simp only [frameY, baseObb, Vec3.translateBy, Vec3.scaleBy, Vec3.sub,
    Vec3.dot]
  linear_combination (iv.base_height / 2) * hyz

theorem gridBlocks_inside (qr : List (List Cell)) (fr : Frame)
    (iv : InputValues) (N : ℕ) (hN : qr.length = N)
    (hsq : ∀ row ∈ qr, row.length = N) (hNpos : 0 < N)
    (hS : 0 < iv.qr_size)
    (hxx : fr.xDir.dot fr.xDir = 1) (hyy : fr.yDir.dot fr.yDir = 1)
    (hxy : fr.xDir.dot fr.yDir = 0) (hxz : fr.xDir.dot fr.zDir = 0)
    (hyz : fr.yDir.dot fr.zDir = 0) :
    ∀ b ∈ gridBlocks fr (startPoint fr iv N) (sideLen iv N)
        iv.block_height 0 qr,
      -(iv.qr_size) / 2 ≤ obbXlo fr b ∧ obbXhi fr b ≤ iv.qr_size / 2
      ∧ -(iv.qr_size) / 2 ≤ obbYlo fr b ∧ obbYhi fr b ≤ iv.qr_size / 2 := by
  have hNq : ((N : ℕ) : ℚ) ≠ 0 := Nat.cast_ne_zero.mpr (by omega)
  have hNqpos : (0 : ℚ) < (N : ℚ) := by exact_mod_cast hNpos
  have hspos : 0 < sideLen iv N := div_pos hS hNqpos
  have hsN : sideLen iv N * (N : ℚ) = iv.qr_size := by
    rw [sideLen]
    field_simp
  intro b hb
  rw [mem_gridBlocks] at hb
  obtain ⟨r, row, hr, hbrow⟩ := hb
  rw [mem_rowBlocks] at hbrow
  obtain ⟨k, c, hk, hc, rfl⟩ := hbrow
  have hrN : r < N := by
    rw [← hN]
    obtain ⟨h1, -⟩ := List.get?_eq_some.mp hr
    exact h1
  have hrowlen : row.length = N := hsq row (List.get?_mem hr)
  have hkN : k < N := by
    rw [← hrowlen]
    obtain ⟨h1, -⟩ := List.get?_eq_some.mp hk
    exact h1
  simp only [Nat.zero_add]
  have hXc := frameX_block fr iv N r k hxx hxy hxz
  have hYc := frameY_block fr iv N r k hyy hxy hyz
  have hkq : ((k : ℚ) + 1) ≤ (N : ℚ) := by exact_mod_cast hkN
  have hrq : ((r : ℚ) + 1) ≤ (N : ℚ) := by exact_mod_cast hrN
  have hks : 0 ≤ (k : ℚ) * sideLen iv N :=
    mul_nonneg (Nat.cast_nonneg k) (le_of_lt hspos)
  have hrs : 0 ≤ (r : ℚ) * sideLen iv N :=
    mul_nonneg (Nat.cast_nonneg r) (le_of_lt hspos)
  have hk1s : ((k : ℚ) + 1) * sideLen iv N ≤ (N : ℚ) * sideLen iv N :=
    mul_le_mul_of_nonneg_right hkq (le_of_lt hspos)
  have hr1s : ((r : ℚ) + 1) * sideLen iv N ≤ (N : ℚ) * sideLen iv N :=
    mul_le_mul_of_nonneg_right hrq (le_of_lt hspos)
  refine ⟨?_, ?_, ?_, ?_⟩
  · rw [obbXlo, hXc]
    simp only [blockObbAt]
    nlinarith [hsN, hks]
  · rw [obbXhi, hXc]
    simp only [blockObbAt]
    nlinarith [hsN, hk1s]
  · rw [obbYlo, hYc]
    simp only [blockObbAt]
    nlinarith [hsN, hr1s]
  · rw [obbYhi, hYc]
    simp only [blockObbAt]
    nlinarith [hsN, hrs]

/-- C7 amended: when a base plate is present (base_height above the 1e-6
tolerance), the footprint bounding box of the returned solid measured in
the frame's X-Y plane equals overall_size × overall_size exactly,
independent of N; without a base plate the footprint is only the
bounding box of the on cells and can be smaller (see the
counterexample). -/
theorem C7_footprint_with_base (qr : List (List Cell)) (fr : Frame)
    (iv : InputValues) (N : ℕ) (hN : qr.length = N)
    (hsq : ∀ row ∈ qr, row.length = N) (hNpos : 0 < N)
    (hS : 0 < iv.qr_size) (hB : tol < iv.base_height)
    (hxx : fr.xDir.dot fr.xDir = 1) (hyy : fr.yDir.dot fr.yDir = 1)
    (hxy : fr.xDir.dot fr.yDir = 0) (hxz : fr.xDir.dot fr.zDir = 0)
    (hyz : fr.yDir.dot fr.zDir = 0) :
    ∃ body, get_qr_temp_geometry okOracle qr fr iv = some body
      ∧ footprintWidth fr body = iv.qr_size
      ∧ footprintDepth fr body = iv.qr_size := by
  have hlen0 : qr.length ≠ 0 := by omega
  have hinside := gridBlocks_inside qr fr iv N hN hsq hNpos hS hxx hyy hxy
    hxz hyz
  have hXbase_lo : obbXlo fr (baseObb fr iv) = -(iv.qr_size) / 2 := by
    rw [obbXlo, frameX_base fr iv hxz]
    simp only [baseObb]
    ring
  have hXbase_hi : obbXhi fr (baseObb fr iv) = iv.qr_size / 2 := by
    rw [obbXhi, frameX_base fr iv hxz]
    simp only [baseObb]
    ring
  have hYbase_lo : obbYlo fr (baseObb fr iv) = -(iv.qr_size) / 2 := by
    rw [obbYlo, frameY_base fr iv hyz]
    simp only [baseObb]
    ring
  have hYbase_hi : obbYhi fr (baseObb fr iv) = iv.qr_size / 2 := by
    rw [obbYhi, frameY_base fr iv hyz]
    simp only [baseObb]
    ring
  refine ⟨baseObb fr iv :: gridBlocks fr (startPoint fr iv N)
      (sideLen iv N) iv.block_height 0 qr, ?_, ?_, ?_⟩
  · rw [build_okOracle_closed _ _ _ hlen0, if_pos hB, hN, pushAll_some]
    rw [List.singleton_append]
  · rw [footprintWidth]
    rw [lowerBound_cons _ _ _ (fun b2 hb2 => by
      rw [hXbase_lo]
      exact (hinside b2 hb2).1)]
    rw [upperBound_cons _ _ _ (fun b2 hb2 => by
      rw [hXbase_hi]
      exact (hinside b2 hb2).2.1)]
    rw [hXbase_lo, hXbase_hi]
    ring
  · rw [footprintDepth]
    rw [lowerBound_cons _ _ _ (fun b2 hb2 => by
      rw [hYbase_lo]
      exact (hinside b2 hb2).2.2.1)]
    rw [upperBound_cons _ _ _ (fun b2 hb2 => by
      rw [hYbase_hi]
      exact (hinside b2 hb2).2.2.2)]
    rw [hYbase_lo, hYbase_hi]
    ring

/-- Witness for C7 at the 1×1 matrix [[1]], frame `F0` and inputs
`ivBase1`. -/
theorem C7_witness :
    ∃ body, get_qr_temp_geometry okOracle [[Cell.int 1]] F0 ivBase1
        = some body
      ∧ footprintWidth F0 body = ivBase1.qr_size
      ∧ footprintDepth F0 body = ivBase1.qr_size :=
  C7_footprint_with_base [[Cell.int 1]] F0 ivBase1 1 rfl (by decide)
    (by decide) (by norm_num [ivBase1]) (by norm_num [tol, ivBase1])
    (by norm_num [F0, Vec3.dot]) (by norm_num [F0, Vec3.dot])
    (by norm_num [F0, Vec3.dot]) (by norm_num [F0, Vec3.dot])
    (by norm_num [F0, Vec3.dot])

/-- C7 counterexample: with no base (base_height 0) and the 2×2 matrix
[[1,0],[0,0]], the build returns a solid consisting of a single side/2
block, whose footprint is 2×2 while overall_size is 4 — so the claim
that every returned solid's footprint equals overall_size × overall_size
is false at this input. -/
theorem C7_counterexample :
    get_qr_temp_geometry okOracle
        [[Cell.int 1, Cell.int 0], [Cell.int 0, Cell.int 0]] F0 ivNoBase
      = some [⟨⟨-1, 1, 1 / 2⟩, ⟨1, 0, 0⟩, ⟨0, 1, 0⟩, 2, 2, 1⟩]
    ∧ footprintWidth F0 [⟨⟨-1, 1, 1 / 2⟩, ⟨1, 0, 0⟩, ⟨0, 1, 0⟩, 2, 2, 1⟩] = 2
    ∧ footprintDepth F0 [⟨⟨-1, 1, 1 / 2⟩, ⟨1, 0, 0⟩, ⟨0, 1, 0⟩, 2, 2, 1⟩] = 2
    ∧ ivNoBase.qr_size = 4
    ∧ (2 : ℚ) ≠ 4 := by
  refine ⟨?_, ?_, ?_, rfl, by norm_num⟩
  · rw [build_okOracle_closed _ _ _ (by simp)]
    rw [if_neg (by norm_num [tol, ivNoBase])]
    simp only [List.length_cons, List.length_nil, Nat.zero_add, gridBlocks,
      rowBlocks, isOn_int_one, isOn_int_zero, Bool.false_eq_true, if_true,
      if_false, List.append_nil, List.nil_append, List.singleton_append]
    rw [pushAll_none_cons]
    simp only [Option.some.injEq, List.cons.injEq, and_true]
    simp only [blockObbAt, startPoint, sideLen, ivNoBase, F0,
      Vec3.translateBy, Vec3.scaleBy, Obb.mk.injEq, Vec3.mk.injEq,
      Nat.cast_ofNat, Nat.cast_zero]
    norm_num
  · simp only [footprintWidth, upperBound, lowerBound, List.foldl_nil,
      obbXhi, obbXlo, frameX, Vec3.sub, Vec3.dot, F0]
    norm_num
  · simp only [footprintDepth, upperBound, lowerBound, List.foldl_nil,
      obbYhi, obbYlo, frameY, Vec3.sub, Vec3.dot, F0]
    norm_num

theorem digitsOfChars_bits :
    ∀ l : List Char, (∀ ch ∈ l, ch = '0' ∨ ch = '1') →
      ∃ vs, digitsOfChars l = some vs ∧ vs.length = l.length
        ∧ ∀ v ∈ vs, v = (0 : ℤ) ∨ v = 1 := by
  intro l
  induction l with
  | nil => intro _; exact ⟨[], rfl, rfl, by simp⟩
  | cons ch rest ih =>
      intro hall
      obtain ⟨vs, hvs, hlen, hbits⟩ := ih (fun c hc => hall c (by simp [hc]))
      have hdig : ch.isDigit = true := by
        rcases hall ch (by simp) with h | h <;> subst h <;> decide
      have hval : ((ch.toNat - '0'.toNat : ℕ) : ℤ) = 0
          ∨ ((ch.toNat - '0'.toNat : ℕ) : ℤ) = 1 := by
        rcases hall ch (by simp) with h | h <;> subst h
        · left; decide
        · right; decide
      refine ⟨((ch.toNat - '0'.toNat : ℕ) : ℤ) :: vs, ?_, by simp [hlen], ?_⟩
      · simp [digitsOfChars, hdig, hvs]
      · intro v hv
        rcases List.mem_cons.mp hv with h | h
        · subst h; exact hval
        · exact hbits v h

theorem build_qr_code_spec :
    ∀ (lines : List String) (N : ℕ), 0 < N →
      (∀ l ∈ lines, (pyStrip l).length = N
        ∧ ∀ ch ∈ (pyStrip l).data, ch = '0' ∨ ch = '1') →
      (build_qr_code lines).length = lines.length
      ∧ ∀ row ∈ build_qr_code lines,
          row.length = N ∧ ∀ c ∈ row, c.isBit = true := by
  intro lines N hN
  induction lines with
  | nil => intro _; exact ⟨rfl, by simp [build_qr_code]⟩
  | cons l rest ih =>
      intro hall
      obtain ⟨hlenl, hchars⟩ := hall l (by simp)
      obtain ⟨ihlen, ihrows⟩ := ih (fun l2 h2 => hall l2 (by simp [h2]))
      obtain ⟨vs, hvs, hvslen, hvsbits⟩ :=
        digitsOfChars_bits (pyStrip l).data hchars
      have hne : ¬((pyStrip l).isEmpty = true) := by
        intro hcontra
        rw [String.isEmpty_iff] at hcontra
        rw [hcontra] at hlenl
        simp at hlenl
        omega
      have hpl : parseQrLine (pyStrip l) = some vs := hvs
      have hstep : build_qr_code (l :: rest)
          = (vs.map Cell.int) :: build_qr_code rest := by
        simp only [build_qr_code, List.filterMap_cons]
        rw [if_neg hne, hpl]
      constructor
      · rw [hstep]
        simp [ihlen]
      · intro row hrow
        rw [hstep] at hrow
        rcases List.mem_cons.mp hrow with h | h
        · subst h
          constructor
          · rw [List.length_map, hvslen]
            exact hlenl
          · intro c hc
            obtain ⟨v, hv, rfl⟩ := List.mem_map.mp hc
            rcases hvsbits v hv with h2 | h2 <;> subst h2 <;> decide
        · exact ihrows row h

/-- C8 amended: the message source build_qr_code yields a BinaryMatrix
whenever the external encoder's text output is a square grid: N nonempty
lines whose stripped form has N characters, each '0' or '1' (which
pyqrcode guarantees).  The CSV source import_qr_from_file performs no
validation and returns the parsed rows as-is, so its output satisfies
the BinaryMatrix invariant exactly when the file content already is a
square 0/1 grid — a ragged or non-binary CSV passes through unchecked
(see the counterexample). -/
theorem C8_matrix_sources (lines : List String) (rows : List (List String))
    (N : ℕ) (hN : 0 < N) (hlen : lines.length = N)
    (hline : ∀ l ∈ lines, (pyStrip l).length = N
      ∧ ∀ ch ∈ (pyStrip l).data, ch = '0' ∨ ch = '1') :
    isBinaryMatrix (build_qr_code lines) = true
    ∧ (isBinaryMatrix (import_qr_from_file (some rows)) = true
        ↔ rows ≠ []
          ∧ ∀ r ∈ rows, r.length = rows.length
            ∧ ∀ s2 ∈ r, s2 = "0" ∨ s2 = "1") := by
  constructor
  · obtain ⟨hblen, hbrows⟩ := build_qr_code_spec lines N hN hline
    simp only [isBinaryMatrix, Bool.and_eq_true, List.all_eq_true,
      Bool.not_eq_true']
    constructor
    · rw [List.isEmpty_eq_false_iff_exists_mem]
      have : (build_qr_code lines).length = N := by rw [hblen, hlen]
      rcases hx : build_qr_code lines with _ | ⟨row, rest⟩
      · rw [hx] at this; simp at this; omega
      · exact ⟨row, by simp⟩
    · intro row hrow
      obtain ⟨h1, h2⟩ := hbrows row hrow
      constructor
      · rw [beq_iff_eq, h1, hblen, hlen]
      · intro c hc
        exact h2 c hc
  · simp only [import_qr_from_file, isBinaryMatrix, Bool.and_eq_true,
      List.all_eq_true, Bool.not_eq_true', List.isEmpty_eq_false_iff_exists_mem,
      List.length_map, List.mem_map, beq_iff_eq, Cell.isBit,
      Bool.or_eq_true, forall_exists_index, and_imp]
    constructor
    · rintro ⟨⟨row, ⟨r, hr, rfl⟩⟩, hall⟩
      constructor
      · rintro rfl
        cases hr
      intro r2 hr2
      obtain ⟨hlen2, hbits2⟩ := hall (r2.map Cell.str) r2 hr2 rfl
      refine ⟨by simpa using hlen2, ?_⟩
      intro s2 hs2
      have := hbits2 (Cell.str s2) (List.mem_map_of_mem Cell.str hs2)
      simpa using this
    · rintro ⟨hne, hall⟩
      obtain ⟨r0, hr0⟩ := List.exists_mem_of_ne_nil rows hne
      constructor
      · exact ⟨r0.map Cell.str, r0, hr0, rfl⟩
      rintro row r hr rfl
      obtain ⟨hlen2, hbits2⟩ := hall r hr
      constructor
      · rw [List.length_map, hlen2]
      · intro c hc
        obtain ⟨s2, hs2, rfl⟩ := List.mem_map.mp hc
        rcases hbits2 s2 hs2 with h | h <;> subst h <;> decide

/-- Witness for C8 at the concrete encoder output ["10","01"] and CSV
rows [["1","0"],["0","1"]]. -/
theorem C8_witness :
    isBinaryMatrix (build_qr_code ["10", "01"]) = true
    ∧ (isBinaryMatrix (import_qr_from_file
          (some [["1", "0"], ["0", "1"]])) = true
        ↔ ([["1", "0"], ["0", "1"]] : List (List String)) ≠ []
          ∧ ∀ r ∈ ([["1", "0"], ["0", "1"]] : List (List String)),
              r.length = ([["1", "0"], ["0", "1"]] : List (List String)).length
              ∧ ∀ s2 ∈ r, s2 = "0" ∨ s2 = "1") :=
  C8_matrix_sources ["10", "01"] [["1", "0"], ["0", "1"]] 2 (by norm_num)
    rfl (by decide)

/-- C8 counterexample: the ragged CSV content [["1","0"],["1"]] is
returned by import_qr_from_file as-is and violates the BinaryMatrix
invariant (the second row has length 1, not 2), so the claim that every
matrix produced by the in-repository sources satisfies the invariant is
false at this input. -/
theorem C8_counterexample :
    isBinaryMatrix (import_qr_from_file (some [["1", "0"], ["1"]])) = false := by
  decide

/-- C9: a CSV with header KEY,OTHER and data rows ["ABC","x"],
["DEF","y"] yields exactly the keys ["ABC","DEF"] in row order, and a
CSV whose header lacks KEY reports the missing column and yields zero
keys. -/
theorem C9_csv_preview :
    get_csv_preview (some ["KEY", "OTHER"]) [["ABC", "x"], ["DEF", "y"]]
      = CsvPreviewResult.preview "KEY" ["ABC", "DEF"] 2
    ∧ get_csv_preview (some ["NAME", "OTHER"]) [["ABC", "x"], ["DEF", "y"]]
      = CsvPreviewResult.missingKeyColumn ["NAME", "OTHER"] := by
  constructor <;> decide

end QRCoder
